import Mathlib

/-!
Verification of the retry executor in `retry.go`.

The repository is a small Go retry library: `Do` runs a fallible operation
up to a configured number of attempts, consulting a retry predicate, an
on-retry callback and a delay policy between attempts, and returns either
`nil`, a context cancellation error, a single error (last-error-only mode)
or an aggregate `Error` (a slice of errors, one slot per attempt).

Shallow embedding conventions:
* Go `error` values are modelled by the inductive `GoError`: `base` is an
  `errors.New`-style leaf, `wrap` is a `fmt.Errorf("...%w...")`-style
  wrapper that has an `Unwrap` method, and `unrecoverable` is the library's
  `unrecoverableError` marker struct (which has no `Unwrap` method).
  A Go `error` interface value that may be `nil` is `Option GoError`.
* Functions that can panic in Go return `Option` (`none` = panic).
* `time.Duration` (an `int64`) is modelled as `Int`; the wrapping shift
  `<<` on `int64` is modelled explicitly by `int64shl`.
* The caller-supplied operation `f func() error` is modelled as a function
  from the invocation index to its result, `f : Nat → Option GoError`.
* The on-retry callback is side-effect only in Go; the executor model
  records in a trace the attempt indices at which the callback and the
  delay function would have been invoked, together with the number of
  invocations of the operation.
* `context.Context` is modelled by what the executor observes of it at
  its check points: the value of `ctx.Err()`, an `Option GoError` that is
  `none` for a live context.  A context that completes mid-delay is a
  real-time event outside this model; the modelled context is static.
-/

namespace Retry

/-- Model of Go error values as seen by this library: `base` for plain
`errors.New` errors, `wrap` for errors that wrap a cause and expose it via
`Unwrap` (message is the full formatted string), and `unrecoverable` for
the library's `unrecoverableError` marker struct, which stores a cause but
has no `Unwrap` method. -/
inductive GoError where
  | base (msg : String)
  | wrap (msg : String) (cause : GoError)
  | unrecoverable (cause : GoError)
deriving DecidableEq

/-- `func UnrecoverableError(err error) unrecoverableError` : wrap an error
in the unrecoverable marker. -/
def UnrecoverableError (err : GoError) : GoError :=
  .unrecoverable err

/-- `func (e unrecoverableError) Error() string` together with the `Error`
methods of the other modelled error shapes: the message of an error value. -/
def goMessage : GoError → String
  | .base msg => msg
  | .wrap msg _ => msg
  | .unrecoverable cause => goMessage cause

/-- `func IsReconverableError(err error) bool` : `errors.As(err, &ue)` walks
the `Unwrap` chain of `err` looking for a value of concrete type
`unrecoverableError`.  `unrecoverableError` itself has no `Unwrap` method,
so the walk stops there; `wrap` nodes are unwrapped. -/
def IsReconverableError : GoError → Bool
  | .base _ => false
  | .wrap _ cause => IsReconverableError cause
  | .unrecoverable _ => true

/-- `func UnwrapUnrecoverableError(err error) error` : after the
`IsReconverableError` check (which walks the unwrap chain), the code runs
the unchecked type assertion `err.(unrecoverableError)`.  That assertion
only succeeds when `err` is the marker at top level; when the marker sits
strictly inside a wrapper the assertion panics, modelled by `none`. -/
def UnwrapUnrecoverableError (err : GoError) : Option GoError :=
  if IsReconverableError err then
    match err with
    | .unrecoverable cause => some cause
    | _ => none
  else
    some err

/-- `type Error []error` : the aggregate error.  A slot holds an `error`
interface value, which may be `nil` (the zero value `make` fills in). -/
abbrev Error := List (Option GoError)

/-- One line of `Error.Error()`: `fmt.Sprintf("# %v: %v", i, v.Error())`.
Calling `v.Error()` on a `nil` slot dereferences a nil interface and
panics, modelled by `none`. -/
def fmtSlot (i : Nat) : Option GoError → Option String
  | some err => some ("# " ++ toString i ++ ": " ++ goMessage err)
  | none => none

/-- `func (e Error) Error() string` : header plus one line per slot,
newline-joined.  `none` when formatting panics on a `nil` slot. -/
def errorMessage (e : Error) : Option String :=
  (e.enum.mapM fun p => fmtSlot p.1 p.2).map fun lines =>
    "Retry Error: \n" ++ String.intercalate "\n" lines

/-- `errors.Is(v, target)` for the modelled error shapes: identity at any
point of the unwrap chain (the marker has no `Unwrap`, so the chain stops
there); a `nil` slot matches nothing. -/
def goErrorIs : Option GoError → GoError → Bool
  | none, _ => false
  | some e, target =>
    e = target ||
      match e with
      | .wrap _ cause => goErrorIs (some cause) target
      | _ => false

/-- `func (e Error) Is(target error) bool` : true if any slot matches. -/
def errorIs (e : Error) (target : GoError) : Bool :=
  e.any fun v => goErrorIs v target

/-- Scalar configuration fields read and written by the delay policies
(`randomTime`, `maxDelayTime`, `maxBackOffN`, `delayTime` of `config`).
Durations are `int64` modelled as `Int`; `maxBackOffN` is a `uint`. -/
structure DelayState where
  randomTime : Int
  maxDelayTime : Int
  maxBackOffN : Nat
  delayTime : Int
deriving DecidableEq

/-- `type DelayFn func(uint, error, *config) time.Duration`.  The Go delay
functions only touch the scalar fields of `*config`, and mutate them
(`BackOffDelayFn` caches state), so the model threads a `DelayState` and
returns the possibly-updated state; `none` models a panic. -/
abbrev DelayFn := Nat → GoError → DelayState → Option (Int × DelayState)

/-- `type RetryIfFn func(uint, error) bool`. -/
abbrev RetryIfFn := Nat → GoError → Bool

/-- `type OnRetryFn func(uint, error)` : side-effect-only callback; its
invocations are recorded by the executor trace. -/
abbrev OnRetryFn := Nat → GoError → Unit

/-- `type config struct` : the retry policy configuration.  The on-retry
callback has no influence on any value of the model (it returns nothing),
so it is not stored; the executor trace records where it would run.
`ctxErr` is what `cfg.ctx.Err()` returns (static in this model). -/
structure Config where
  attempts : Nat
  retryIfFn : RetryIfFn
  delayFn : DelayFn
  delay : DelayState
  lastErrorOnly : Bool
  ctxErr : Option GoError

/-- `type Option func(*config)`. -/
abbrev ConfigOption := Config → Config

/-- `type DelayOption func(*config)`. -/
abbrev DelayOption := Config → Config

/-- `defaultAttempts = uint(10)`. -/
def defaultAttempts : Nat := 10

/-- `defaultRetryIfFn` : retry unless the error is marked unrecoverable. -/
def defaultRetryIfFn : RetryIfFn := fun _ err => !(IsReconverableError err)

/-- `defaultDelayFn` : always zero delay. -/
def defaultDelayFn : DelayFn := fun _ _ c => some (0, c)

/-- `time.Duration(1<<63 - 1)`, the maximum `int64`. -/
def maxInt64 : Int := 2 ^ 63 - 1

/-- `func newDefaultConfig() *config`.  Unset scalar fields are Go zero
values; `ctx` is `context.Background()`, whose `Err()` is always `nil`. -/
def newDefaultConfig : Config :=
  { attempts := defaultAttempts
    retryIfFn := defaultRetryIfFn
    delayFn := defaultDelayFn
    delay := { randomTime := 0, maxDelayTime := maxInt64, maxBackOffN := 0, delayTime := 0 }
    lastErrorOnly := false
    ctxErr := none }

/-- `func WithAttempts(attempts uint) Option`. -/
def WithAttempts (attempts : Nat) : ConfigOption :=
  fun c => { c with attempts := attempts }

/-- `func WithRetryIfFn(retryIfFn RetryIfFn) Option`. -/
def WithRetryIfFn (retryIfFn : RetryIfFn) : ConfigOption :=
  fun c => { c with retryIfFn := retryIfFn }

/-- `func WithLastErrorOnly(lastErrorOnly bool) Option`. -/
def WithLastErrorOnly (lastErrorOnly : Bool) : ConfigOption :=
  fun c => { c with lastErrorOnly := lastErrorOnly }

/-- `func WithContext(ctx context.Context) Option` : the model stores what
the executor observes of the context, its `Err()` value. -/
def WithContext (ctxErr : Option GoError) : ConfigOption :=
  fun c => { c with ctxErr := ctxErr }

/-- `func WithOnRetryFn(onretryFn OnRetryFn) Option` : the callback is
side-effect only; the executor trace records its invocation points, so the
option leaves the modelled configuration unchanged. -/
def WithOnRetryFn (_onretryFn : OnRetryFn) : ConfigOption :=
  fun c => c

/-- `func SetMaxDelayTimeFn(maxDelayTime time.Duration) DelayOption`. -/
def SetMaxDelayTimeFn (maxDelayTime : Int) : DelayOption :=
  fun c => { c with delay := { c.delay with maxDelayTime := maxDelayTime } }

/-- `func SetFixTimeFn(fixDelayTime time.Duration) DelayOption`. -/
def SetFixTimeFn (fixDelayTime : Int) : DelayOption :=
  fun c => { c with delay := { c.delay with delayTime := fixDelayTime } }

/-- `func SetRamdomTimeFn(randomTime time.Duration) DelayOption`. -/
def SetRamdomTimeFn (randomTime : Int) : DelayOption :=
  fun c => { c with delay := { c.delay with randomTime := randomTime } }

/-- `func SetBackOffBeginTimeFn(backOffBeginTime time.Duration) DelayOption`. -/
def SetBackOffBeginTimeFn (backOffBeginTime : Int) : DelayOption :=
  fun c => { c with delay := { c.delay with delayTime := backOffBeginTime } }

/-- `func FixDelayFn(n uint, err error, c *config) time.Duration`. -/
def FixDelayFn : DelayFn :=
  fun _ _ c => some (c.delayTime, c)

/-- `math/rand.Int63n(n)` : panics (`none`) when `n <= 0`, otherwise a
value in `[0, n)` determined here by the explicit source value `src`. -/
def randInt63n (src : Int) (n : Int) : Option Int :=
  if n ≤ 0 then none else some (src % n)

/-- `func RandomDelayFn(n uint, err error, c *config) time.Duration` :
`time.Duration(rand.Int63n(int64(c.randomTime)))`.  The hidden global
random source is made explicit as the first argument `src`. -/
def RandomDelayFn (src : Int) : DelayFn :=
  fun _ _ c => (randInt63n src c.randomTime).map fun d => (d, c)

/-- Two's-complement wrap of an integer into the `int64` range. -/
def int64wrap (x : Int) : Int :=
  (x + 2 ^ 63) % 2 ^ 64 - 2 ^ 63

/-- Go's `<<` on `int64`: multiply by a power of two and wrap. -/
def int64shl (x : Int) (s : Nat) : Int :=
  int64wrap (x * 2 ^ s)

/-- Go's subtraction on `uint` (64-bit): wraps modulo `2 ^ 64`, so
`62 - l` underflows to a huge value whenever `l > 62`. -/
def uint64sub (a b : Nat) : Nat :=
  (a + 2 ^ 64 - b % 2 ^ 64) % 2 ^ 64

/-- `func BackOffDelayFn(n uint, err error, c *config) time.Duration` :
defaults the base to 1, lazily computes and caches the shift cap
`62 - uint(math.Floor(math.Log2(float64(base))))` in `maxBackOffN`
(0 doubles as the "unset" sentinel), caps the attempt index by it, and
shifts with `int64` wraparound.

The float expression `uint(math.Floor(math.Log2(float64(base))))` has no
exact integer semantics: `math.Log2` is an approximation whose rounding
(and hence the floor, for bases whose logarithm lands within a rounding
step of an integer) depends on the implementation and architecture, and
for bases whose `float64` rounds to `2 ^ 63` it returns exactly 63, making
the `uint` subtraction underflow so that the shift is effectively uncapped
and wraps.  As with the hidden random source of `RandomDelayFn`, the model
therefore takes the computed value as an explicit function `flog` of the
base, and mirrors every integer operation around it exactly. -/
def BackOffDelayFn (flog : Int → Nat) : DelayFn := fun n _ c =>
  let maxShift : Nat := 62
  let c := if c.delayTime = 0 then { c with delayTime := 1 } else c
  let c :=
    if c.maxBackOffN = 0 then
      { c with maxBackOffN := uint64sub maxShift (flog c.delayTime) }
    else c
  let n := if n > c.maxBackOffN then c.maxBackOffN else n
  some (int64shl c.delayTime n, c)

/-- `func CombineDelayFn(delayFns ...DelayFn) DelayFn` : sums the delays of
the given policies on the same input, threading the shared config state. -/
def CombineDelayFn (delayFns : List DelayFn) : DelayFn := fun n e c =>
  delayFns.foldl
    (fun acc df =>
      match acc with
      | none => none
      | some (d, c) =>
        match df n e c with
        | none => none
        | some (d2, c2) => some (d + d2, c2))
    (some (0, c))

/-- `func WithDelayFn(df DelayFn, opts ...DelayOption) Option` : applies
the delay sub-options, then installs `df` wrapped so its result is clamped
to `maxDelayTime`. -/
def WithDelayFn (df : DelayFn) (opts : List DelayOption) : ConfigOption :=
  fun c =>
    let c := opts.foldl (fun c opt => opt c) c
    { c with
      delayFn := fun n e ds =>
        match df n e ds with
        | none => none
        | some (delayTime, ds) =>
          if delayTime > ds.maxDelayTime then some (ds.maxDelayTime, ds)
          else some (delayTime, ds) }

/-- What one call to the executor did: how many times it invoked the
operation, and the attempt indices at which it invoked the on-retry
callback and the delay function. -/
structure DoTrace where
  calls : Nat
  onRetryIdx : List Nat
  delayIdx : List Nat
deriving DecidableEq

/-- The value `Do` returns to its caller: `nil`, a single error, the
aggregate `Error`, or a panic (nil-map dereference or a panicking
delay/unwrap call propagating out). -/
inductive DoReturn where
  | ok
  | err (e : GoError)
  | agg (slots : Error)
  | panicked
deriving DecidableEq

/-- Lines 137-140 of `Do` (also reached by `break`): in last-error-only
mode return `errs[lastErrIndex]` (a `nil` slot would surface as a `nil`
error), otherwise return the whole aggregate. -/
def finishRes (cfg : Config) (errs : Error) (lastErrIndex : Nat) : DoReturn :=
  if cfg.lastErrorOnly then
    match errs.get? lastErrIndex with
    | some (some e) => .err e
    | some none => .ok
    | none => .panicked
  else
    .agg errs

/-- The `for ; n < cfg.attempts; n++` loop of `Do`, with `fuel` the number
of loop-condition successes remaining (`fuel = cfg.attempts - n`).  State:
current index `n`, the error slice, `lastErrIndex`, the delay-policy
scalar state, and the accumulated trace. -/
def doLoop (f : Nat → Option GoError) (cfg : Config) :
    Nat → Nat → Error → Nat → DelayState → Nat → List Nat → List Nat →
    DoReturn × DoTrace
  | 0, _, errs, lastErrIndex, _, calls, cIdx, dIdx =>
    (finishRes cfg errs lastErrIndex, ⟨calls, cIdx, dIdx⟩)
  | fuel + 1, n, errs, lastErrIndex, ds, calls, cIdx, dIdx =>
    match f n with
    | none => (.ok, ⟨calls + 1, cIdx, dIdx⟩)
    | some err =>
      let lastErrIndex := if !cfg.lastErrorOnly then n else lastErrIndex
      match UnwrapUnrecoverableError err with
      | none => (.panicked, ⟨calls + 1, cIdx, dIdx⟩)
      | some stored =>
        let errs := errs.set lastErrIndex (some stored)
        if !cfg.retryIfFn n err then
          (finishRes cfg errs lastErrIndex, ⟨calls + 1, cIdx, dIdx⟩)
        else
          let cIdx := cIdx ++ [n]
          if n = cfg.attempts - 1 then
            (finishRes cfg errs lastErrIndex, ⟨calls + 1, cIdx, dIdx⟩)
          else
            match cfg.delayFn n err ds with
            | none => (.panicked, ⟨calls + 1, cIdx, dIdx⟩)
            | some (_, ds) =>
              doLoop f cfg fuel (n + 1) errs lastErrIndex ds (calls + 1)
                cIdx (dIdx ++ [n])

/-- Build the configuration from the defaults and the option list, as the
head of `Do` does. -/
def buildConfig (opts : List ConfigOption) : Config :=
  opts.foldl (fun c opt => opt c) newDefaultConfig

/-- `func Do(f func() error, opts ...Option) error` : build the config,
return the context error if the context is already done, treat a zero
attempt budget as an immediate `nil`, pre-size the error slice, and run
the loop.  The modelled context is static, so the `ctx.Done()` arm of the
in-loop `select` (an event in real time) never fires. -/
def Do (f : Nat → Option GoError) (opts : List ConfigOption) : DoReturn × DoTrace :=
  let cfg := buildConfig opts
  match cfg.ctxErr with
  | some ctxErr => (.err ctxErr, ⟨0, [], []⟩)
  | none =>
    if cfg.attempts = 0 then (.ok, ⟨0, [], []⟩)
    else
      let errs : Error :=
        if cfg.lastErrorOnly then List.replicate 1 none
        else List.replicate cfg.attempts none
      doLoop f cfg cfg.attempts 0 errs 0 cfg.delay 0 [] []

/-! ## Claims about error classification and unwrapping -/

/-- C6 (counterexample): the claim says `UnwrapUnrecoverableError` returns
the innermost wrapped cause whenever the marker occurs anywhere in the
cause chain.  A marker strictly inside a wrapper is detected by the chain
walk, but the subsequent unchecked type assertion panics; and a nested
marker is unwrapped only one layer, leaving an inner marker. -/
theorem c6_counterexample :
    IsReconverableError (.wrap "m" (.unrecoverable (.base "x"))) = true ∧
    UnwrapUnrecoverableError (.wrap "m" (.unrecoverable (.base "x"))) = none ∧
    UnwrapUnrecoverableError (.wrap "m" (.unrecoverable (.base "x"))) ≠ some (.base "x") ∧
    UnwrapUnrecoverableError (.unrecoverable (.unrecoverable (.base "x"))) =
      some (.unrecoverable (.base "x")) ∧
    UnwrapUnrecoverableError (.unrecoverable (.unrecoverable (.base "x"))) ≠
      some (.base "x") := by
  decide

/-- C6 (amended): `UnwrapUnrecoverableError` unwraps exactly one marker
layer when the error is the marker at top level; returns the error
unchanged when no marker occurs in its chain; and panics when the marker
occurs strictly inside a wrapper. -/
theorem c6_unwrap_amended (e : GoError) :
    UnwrapUnrecoverableError (.unrecoverable e) = some e ∧
    (IsReconverableError e = false → UnwrapUnrecoverableError e = some e) ∧
    (∀ msg, UnwrapUnrecoverableError (.wrap msg e) =
      if IsReconverableError e then none else some (.wrap msg e)) := by
  refine ⟨by simp [UnwrapUnrecoverableError, IsReconverableError], ?_, ?_⟩
  · intro h
    simp [UnwrapUnrecoverableError, h]
  · intro msg
    by_cases h : IsReconverableError e <;>
      simp [UnwrapUnrecoverableError, IsReconverableError, h]

/-- Witness for C6 (amended) at a concrete error. -/
theorem c6_unwrap_amended_witness :
    IsReconverableError (.base "x") = false ∧
    UnwrapUnrecoverableError (.unrecoverable (.base "x")) = some (.base "x") ∧
    UnwrapUnrecoverableError (.base "x") = some (.base "x") :=
  ⟨by decide, (c6_unwrap_amended (.base "x")).1, (c6_unwrap_amended (.base "x")).2.1 (by decide)⟩

/-! ## Claims about the delay policies -/

/-- C9 (counterexample): the claim says the random delay policy returns a
valid duration for every configuration in which it may be invoked,
including the default configuration with an unset (zero) random bound.
With the default bound `rand.Int63n(0)` panics. -/
theorem c9_counterexample :
    newDefaultConfig.delay.randomTime = 0 ∧
    RandomDelayFn 0 0 (.base "e") newDefaultConfig.delay = none := by
  decide

/-- C9 (amended): whenever the configured random bound is positive, the
random delay policy returns a duration in `[0, bound)` and leaves the
configuration unchanged; with a non-positive bound it panics. -/
theorem c9_random_amended (src : Int) (n : Nat) (err : GoError) (c : DelayState)
    (h : 0 < c.randomTime) :
    RandomDelayFn src n err c = some (src % c.randomTime, c) ∧
    0 ≤ src % c.randomTime ∧ src % c.randomTime < c.randomTime := by
  refine ⟨?_, Int.emod_nonneg src (by omega), Int.emod_lt_of_pos src h⟩
  simp [RandomDelayFn, randInt63n, show ¬(c.randomTime ≤ 0) by omega]

/-- Witness for C9 (amended) at a concrete bound. -/
theorem c9_random_amended_witness :
    RandomDelayFn 5 0 (.base "e")
        { randomTime := 3, maxDelayTime := 0, maxBackOffN := 0, delayTime := 0 } =
      some (5 % 3, { randomTime := 3, maxDelayTime := 0, maxBackOffN := 0, delayTime := 0 }) :=
  (c9_random_amended 5 0 (.base "e") _ (by decide)).1

/-! ## Claims about entry behavior of the executor -/

/-- C4: a configuration whose context is already cancelled or expired when
`Do` is entered makes `Do` return that context error with zero
invocations of the operation. -/
theorem c4_precancelled_ctx (f : Nat → Option GoError) (opts : List ConfigOption)
    (ctxErr : GoError) (h : (buildConfig opts).ctxErr = some ctxErr) :
    Do f opts = (.err ctxErr, ⟨0, [], []⟩) := by
  simp only [Do, h]

/-- Witness for C4 with a concrete cancelled context. -/
theorem c4_precancelled_ctx_witness :
    (buildConfig [WithContext (some (.base "context canceled"))]).ctxErr =
      some (.base "context canceled") ∧
    Do (fun _ => some (.base "e")) [WithContext (some (.base "context canceled"))] =
      (.err (.base "context canceled"), ⟨0, [], []⟩) :=
  ⟨rfl, c4_precancelled_ctx _ _ _ rfl⟩

/-- C5 (counterexample): the claim says a zero attempt budget makes `Do`
return `nil` for every option list; but the context check precedes the
zero-budget check, so a pre-cancelled context wins. -/
theorem c5_counterexample :
    (buildConfig [WithAttempts 0, WithContext (some (.base "context canceled"))]).attempts
      = 0 ∧
    (Do (fun _ => some (.base "e"))
        [WithAttempts 0, WithContext (some (.base "context canceled"))]).1 =
      .err (.base "context canceled") ∧
    (Do (fun _ => some (.base "e"))
        [WithAttempts 0, WithContext (some (.base "context canceled"))]).1 ≠ .ok := by
  decide

/-- C5 (amended): if the configured attempt budget is zero and the context
is not already done, `Do` returns `nil` and never invokes the operation. -/
theorem c5_zero_attempts (f : Nat → Option GoError) (opts : List ConfigOption)
    (hctx : (buildConfig opts).ctxErr = none) (h0 : (buildConfig opts).attempts = 0) :
    Do f opts = (.ok, ⟨0, [], []⟩) := by
  simp only [Do, hctx, h0]
  rfl

/-- Witness for C5 (amended) with a concrete zero budget. -/
theorem c5_zero_attempts_witness :
    Do (fun _ => some (.base "e")) [WithAttempts 0] = (.ok, ⟨0, [], []⟩) :=
  c5_zero_attempts _ _ rfl rfl

/-! ## Counterexamples for the unrecoverable-error and aggregate claims -/

/-- C2 (counterexample): the claim says that, under the default predicate,
the error returned for a first-attempt unrecoverable error equals the
unwrapped cause.  Under the default (collect-all) configuration `Do`
returns the pre-sized aggregate instead. -/
theorem c2_counterexample :
    (Do (fun _ => some (.unrecoverable (.base "x"))) []).1 =
      .agg (some (.base "x") :: List.replicate 9 none) ∧
    (Do (fun _ => some (.unrecoverable (.base "x"))) []).1 ≠ .err (.base "x") := by
  decide

/-- C10 (counterexample): the claim says every slot of a returned
aggregate is non-nil even when the loop stops before exhausting the
budget.  A first-attempt unrecoverable error under the default
configuration breaks at attempt 0 but the aggregate was pre-sized to 10
slots; slot 1 is nil and computing the aggregate's message panics. -/
theorem c10_counterexample :
    (Do (fun _ => some (.unrecoverable (.base "y"))) []).1 =
      .agg (some (.base "y") :: List.replicate 9 none) ∧
    (some (.base "y") :: List.replicate 9 none : Error).get? 1 = some none ∧
    errorMessage (some (.base "y") :: List.replicate 9 none) = none := by
  decide

/-! ## The executor loop: general lemmas -/

/-- C2 (amended): an operation whose first invocation returns a top-level
unrecoverable-marked error, run under the default predicate, is invoked
exactly once with no callback and no delay; in last-error-only mode the
returned error equals the unwrapped cause, while in the default
collect-all mode the returned aggregate holds the unwrapped cause in slot
0 and the remaining pre-sized slots stay nil. -/
theorem c2_unrecoverable_once (f : Nat → Option GoError) (cause : GoError) (b : Bool)
    (h : f 0 = some (.unrecoverable cause)) :
    Do f [WithLastErrorOnly b] =
      ((if b then .err cause else .agg (some cause :: List.replicate 9 none)),
        ⟨1, [], []⟩) := by
  cases b with
  | false =>
    have key : Do f [WithLastErrorOnly false] =
        doLoop f (buildConfig [WithLastErrorOnly false]) (9 + 1) 0
          (List.replicate 10 none) 0 newDefaultConfig.delay 0 [] [] := rfl
    rw [key]
    simp only [doLoop, h]
    rfl
  | true =>
    have key : Do f [WithLastErrorOnly true] =
        doLoop f (buildConfig [WithLastErrorOnly true]) (9 + 1) 0
          (List.replicate 1 none) 0 newDefaultConfig.delay 0 [] [] := rfl
    rw [key]
    simp only [doLoop, h]
    rfl

/-- Witness for C2 (amended) at a concrete cause in last-error-only mode. -/
theorem c2_unrecoverable_once_witness :
    Do (fun _ => some (.unrecoverable (.base "w"))) [WithLastErrorOnly true] =
      (.err (.base "w"), ⟨1, [], []⟩) :=
  c2_unrecoverable_once _ _ true rfl

/-- Record the errors of a run that fills slots `n, n+1, ...` for `fuel`
consecutive attempts: `errs[i] = some (ss i)` for each of them. -/
def setFrom (ss : Nat → GoError) : Error → Nat → Nat → Error
  | errs, _, 0 => errs
  | errs, n, fuel + 1 => setFrom ss (errs.set n (some (ss n))) (n + 1) fuel

/-- If every attempt from the current index up to the budget fails with an
error the predicate accepts, the loop runs to budget exhaustion in
collect-all mode: it fills the remaining slots, makes one call per
remaining index, runs the callback at each of them and delays after each
but the last. -/
theorem doLoop_exhaust (f : Nat → Option GoError) (cfg : Config)
    (es ss : Nat → GoError)
    (hf : ∀ i, i < cfg.attempts → f i = some (es i))
    (hu : ∀ i, i < cfg.attempts → UnwrapUnrecoverableError (es i) = some (ss i))
    (hp : ∀ i, i < cfg.attempts → cfg.retryIfFn i (es i) = true)
    (hd : ∀ i e ds, (cfg.delayFn i e ds).isSome)
    (hlast : cfg.lastErrorOnly = false) :
    ∀ fuel n errs lastErrIndex ds calls cIdx dIdx, 0 < fuel →
      n + fuel = cfg.attempts →
      doLoop f cfg fuel n errs lastErrIndex ds calls cIdx dIdx =
        (.agg (setFrom ss errs n fuel),
          ⟨calls + fuel, cIdx ++ List.range' n fuel, dIdx ++ List.range' n (fuel - 1)⟩) := by
  intro fuel
  induction fuel with
  | zero => omega
  | succ fuel ih =>
    intro n errs lastErrIndex ds calls cIdx dIdx _ htot
    have hn : n < cfg.attempts := by omega
    simp only [doLoop, hf n hn, hu n hn, hp n hn, hlast, Bool.not_false, Bool.not_true,
      if_true, if_false, ite_true, ite_false]
    by_cases hstop : fuel = 0
    · subst hstop
      have : n = cfg.attempts - 1 := by omega
      simp only [this, if_pos rfl, finishRes, hlast]
      simp [setFrom, List.range'_succ]
    · have hne : ¬(n = cfg.attempts - 1) := by omega
      rw [if_neg hne]
      obtain ⟨⟨d, ds2⟩, hds⟩ := Option.isSome_iff_exists.1 (hd n (es n) ds)
      rw [hds, if_neg (show ¬(false = true) by simp)]
      show doLoop f cfg fuel (n + 1) (errs.set n (some (ss n))) n ds2 (calls + 1)
          (cIdx ++ [n]) (dIdx ++ [n]) = _
      rw [ih (n + 1) (errs.set n (some (ss n))) n ds2 (calls + 1) (cIdx ++ [n])
        (dIdx ++ [n]) (by omega) (by omega)]
      have h1 : fuel + 1 - 1 = fuel := by omega
      have h2 : List.range' n (fuel + 1) = n :: List.range' (n + 1) fuel :=
        List.range'_succ ..
      have h3 : List.range' n fuel = n :: List.range' (n + 1) (fuel - 1) := by
        conv_lhs => rw [show fuel = (fuel - 1) + 1 by omega]
        exact List.range'_succ ..
      simp only [setFrom, h1, h2, h3, Prod.mk.injEq, DoTrace.mk.injEq, List.append_assoc,
        List.singleton_append, true_and]
      exact ⟨by omega, trivial⟩

/-- A plain always-failing operation under the default configuration:
full ten-attempt run, aggregate with every slot the original error. -/
theorem do_plain_default (e : GoError) (h : IsReconverableError e = false) :
    Do (fun _ => some e) [] =
      (.agg (List.replicate 10 (some e)), ⟨10, List.range 10, List.range 9⟩) := by
  have hu : UnwrapUnrecoverableError e = some e := by
    simp [UnwrapUnrecoverableError, h]
  have hrun := doLoop_exhaust (fun _ => some e) (buildConfig []) (fun _ => e) (fun _ => e)
    (fun _ _ => rfl) (fun _ _ => hu)
    (fun i _ => by simp [buildConfig, newDefaultConfig, defaultRetryIfFn, h])
    (fun _ _ _ => rfl) rfl 10 0 (List.replicate 10 none) 0 newDefaultConfig.delay 0 [] []
    (by omega) rfl
  exact (rfl :
    Do (fun _ => some e) [] = doLoop (fun _ => some e) (buildConfig []) 10 0
      (List.replicate 10 none) 0 newDefaultConfig.delay 0 [] []).trans
    (hrun.trans (by rfl))

/-- C1: a plain always-failing operation under the default configuration
is invoked exactly 10 times (the default attempt budget) and `Do` returns
an aggregate of length 10 with every slot equal to the original error. -/
theorem c1_default_all_fail (e : GoError) (h : IsReconverableError e = false) :
    Do (fun _ => some e) [] =
      (.agg (List.replicate 10 (some e)), ⟨10, List.range 10, List.range 9⟩) :=
  do_plain_default e h

/-- Witness for C1 at a concrete plain error. -/
theorem c1_default_all_fail_witness :
    IsReconverableError (.base "error") = false ∧
    Do (fun _ => some (.base "error")) [] =
      (.agg (List.replicate 10 (some (.base "error"))),
        ⟨10, List.range 10, List.range 9⟩) :=
  ⟨rfl, c1_default_all_fail (.base "error") rfl⟩

/-- C10 (amended): when the default-configuration run exhausts its budget
the returned aggregate has a non-nil error in every slot and its message
is well-defined; only early-terminating runs leave nil slots behind (see
the counterexample). -/
theorem c10_aggregate_amended (e : GoError) (h : IsReconverableError e = false) :
    (Do (fun _ => some e) []).1 = .agg (List.replicate 10 (some e)) ∧
    (List.replicate 10 (some e) : Error).all Option.isSome = true ∧
    (errorMessage (List.replicate 10 (some e))).isSome = true := by
  refine ⟨?_, rfl, rfl⟩
  rw [do_plain_default e h]

/-- Witness for C10 (amended) at a concrete plain error. -/
theorem c10_aggregate_amended_witness :
    IsReconverableError (.base "z") = false ∧
    (Do (fun _ => some (.base "z")) []).1 = .agg (List.replicate 10 (some (.base "z"))) ∧
    (errorMessage (List.replicate 10 (some (.base "z")))).isSome = true :=
  ⟨rfl, (c10_aggregate_amended (.base "z") rfl).1, (c10_aggregate_amended (.base "z") rfl).2.2⟩

/-- If every attempt up to index `k` fails, the predicate accepts the
attempts before `k` and rejects at `k` (within budget), the loop stops
right after the `k`-th invocation: one call per index `0..k`, callback
and delay only at the indices strictly before `k`. -/
theorem doLoop_pred_stop (f : Nat → Option GoError) (cfg : Config) (es : Nat → GoError)
    (k : Nat)
    (hf : ∀ i, i ≤ k → f i = some (es i))
    (hu : ∀ i, i ≤ k → (UnwrapUnrecoverableError (es i)).isSome)
    (hpt : ∀ i, i < k → cfg.retryIfFn i (es i) = true)
    (hpf : cfg.retryIfFn k (es k) = false)
    (hd : ∀ i e ds, (cfg.delayFn i e ds).isSome)
    (hk : k < cfg.attempts) :
    ∀ fuel n errs lastErrIndex ds calls cIdx dIdx, n ≤ k → n + fuel = cfg.attempts →
      (doLoop f cfg fuel n errs lastErrIndex ds calls cIdx dIdx).2 =
        ⟨calls + (k + 1 - n), cIdx ++ List.range' n (k - n), dIdx ++ List.range' n (k - n)⟩ := by
  intro fuel
  induction fuel with
  | zero =>
    intro n _ _ _ _ _ _ hnk htot
    omega
  | succ fuel ih =>
    intro n errs lastErrIndex ds calls cIdx dIdx hnk htot
    obtain ⟨stored, hst⟩ := Option.isSome_iff_exists.1 (hu n hnk)
    by_cases hlastn : n = k
    · subst hlastn
      simp only [doLoop, hf n hnk, hst, hpf, Bool.not_false, if_true, ite_true]
      simp [List.range'_succ]
    · have hnlt : n < k := by omega
      simp only [doLoop, hf n hnk, hst, hpt n hnlt, Bool.not_true]
      rw [if_neg (show ¬(false = true) by simp)]
      have hne : ¬(n = cfg.attempts - 1) := by omega
      rw [if_neg hne]
      obtain ⟨⟨d, ds2⟩, hds⟩ := Option.isSome_iff_exists.1 (hd n (es n) ds)
      rw [hds]
      show (doLoop f cfg fuel (n + 1)
          (errs.set (if !cfg.lastErrorOnly then n else lastErrIndex) (some stored))
          (if !cfg.lastErrorOnly then n else lastErrIndex) ds2 (calls + 1)
          (cIdx ++ [n]) (dIdx ++ [n])).2 = _
      rw [ih (n + 1) _ _ ds2 (calls + 1) (cIdx ++ [n]) (dIdx ++ [n]) (by omega) (by omega)]
      have hrange : List.range' n (k - n) = n :: List.range' (n + 1) (k - (n + 1)) := by
        conv_lhs => rw [show k - n = (k - (n + 1)) + 1 by omega]
        exact List.range'_succ ..
      simp only [hrange, DoTrace.mk.injEq, List.append_assoc, List.singleton_append]
      exact ⟨by omega, trivial, trivial⟩

/-- C3: for every configuration whose context is live and whose delay
function is total, if the operation fails through attempt `k`, the
predicate accepts the attempts before `k` and rejects at attempt `k`
(within budget), then `Do` invokes the operation exactly `k + 1` times,
does not invoke the on-retry callback for attempt `k`, and does not
invoke the delay function at or after attempt `k`. -/
theorem c3_predicate_stop (f : Nat → Option GoError) (opts : List ConfigOption)
    (es : Nat → GoError) (k : Nat)
    (hctx : (buildConfig opts).ctxErr = none)
    (hk : k < (buildConfig opts).attempts)
    (hf : ∀ i, i ≤ k → f i = some (es i))
    (hu : ∀ i, i ≤ k → (UnwrapUnrecoverableError (es i)).isSome)
    (hpt : ∀ i, i < k → (buildConfig opts).retryIfFn i (es i) = true)
    (hpf : (buildConfig opts).retryIfFn k (es k) = false)
    (hd : ∀ i e ds, ((buildConfig opts).delayFn i e ds).isSome) :
    (Do f opts).2.calls = k + 1 ∧
    k ∉ (Do f opts).2.onRetryIdx ∧ k ∉ (Do f opts).2.delayIdx := by
  have hatt : ¬((buildConfig opts).attempts = 0) := by omega
  have hDo : Do f opts = doLoop f (buildConfig opts) (buildConfig opts).attempts 0
      (if (buildConfig opts).lastErrorOnly then List.replicate 1 none
        else List.replicate (buildConfig opts).attempts none)
      0 (buildConfig opts).delay 0 [] [] := by
    simp only [Do, hctx, hatt, if_false, ite_false]
  rw [hDo, doLoop_pred_stop f (buildConfig opts) es k hf hu hpt hpf hd hk
    (buildConfig opts).attempts 0 _ 0 (buildConfig opts).delay 0 [] []
    (Nat.zero_le k) (Nat.zero_add _)]
  refine ⟨?_, ?_, ?_⟩
  · show 0 + (k + 1 - 0) = k + 1
    omega
  · show k ∉ [] ++ List.range' 0 (k - 0)
    simp [← List.range_eq_range']
  · show k ∉ [] ++ List.range' 0 (k - 0)
    simp [← List.range_eq_range']

/-- Witness for C3: predicate stops at attempt 2, so exactly 3 calls. -/
theorem c3_predicate_stop_witness :
    (Do (fun _ => some (.base "e")) [WithRetryIfFn fun i _ => decide (i < 2)]).2.calls
      = 3 ∧
    2 ∉ (Do (fun _ => some (.base "e"))
      [WithRetryIfFn fun i _ => decide (i < 2)]).2.onRetryIdx ∧
    2 ∉ (Do (fun _ => some (.base "e"))
      [WithRetryIfFn fun i _ => decide (i < 2)]).2.delayIdx :=
  c3_predicate_stop _ _ (fun _ => .base "e") 2 rfl (by decide)
    (fun _ _ => rfl) (fun _ _ => rfl)
    (fun i hi => decide_eq_true hi) (by decide) (fun _ _ _ => rfl)

/-! ## The exponential backoff policy and the delay ceiling -/

/-- The base delay the backoff policy actually uses: the configured base,
or 1 if unset (zero). -/
def backoffBase (c : DelayState) : Int :=
  if c.delayTime = 0 then 1 else c.delayTime

/-- The exponent cap the backoff policy derives, in wrapping `uint`
arithmetic, from the maximum safe shift width 62 and the floor-log2 of
the base as computed by the float path (taken as the explicit function
`flog`). -/
def backoffCap (flog : Int → Nat) (c : DelayState) : Nat :=
  uint64sub 62 (flog (backoffBase c))

/-- Capping by `maxBackOffN` is taking the minimum. -/
theorem backoff_min (n m : Nat) : (if n > m then m else n) = min n m := by
  rcases le_or_lt n m with h | h
  · simp [Nat.not_lt.2 h, Nat.min_eq_left h]
  · simp [h, Nat.min_eq_right (Nat.le_of_lt h)]

/-- Evaluation of `BackOffDelayFn` on a nonzero base with the exponent
cache unset: computes and stores the cap, and shifts. -/
theorem backOffDelayFn_fresh (flog : Int → Nat) (c : DelayState)
    (hb : c.delayTime ≠ 0) (h2 : c.maxBackOffN = 0) (n : Nat) (e : GoError) :
    BackOffDelayFn flog n e c =
      some (int64shl c.delayTime (min n (uint64sub 62 (flog c.delayTime))),
        { c with maxBackOffN := uint64sub 62 (flog c.delayTime) }) := by
  simp only [BackOffDelayFn, if_neg hb, h2, if_pos rfl, ite_true, backoff_min]

/-- Evaluation of `BackOffDelayFn` when the cached exponent cap already
equals the value derived from the base: the state is left unchanged and
the cached cap is (re)used. -/
theorem backOffDelayFn_cached (flog : Int → Nat) (c : DelayState)
    (hb : c.delayTime ≠ 0)
    (hc : c.maxBackOffN = uint64sub 62 (flog c.delayTime)) (n : Nat) (e : GoError) :
    BackOffDelayFn flog n e c =
      some (int64shl c.delayTime (min n c.maxBackOffN), c) := by
  by_cases h0 : c.maxBackOffN = 0
  · rw [backOffDelayFn_fresh flog c hb h0 n e]
    obtain ⟨r, m, b, d⟩ := c
    dsimp only at hc ⊢
    subst hc
    rfl
  · simp only [BackOffDelayFn, if_neg hb, if_neg h0, backoff_min]

/-- C7: for every attempt index, every floor-log2 valuation of the float
path, and every configuration with an unset exponent cache, the backoff
policy returns `base << min(n, maxExponent)` (the wrapping `int64` shift),
where `base` is the configured base delay (1 if unset/zero) and
`maxExponent` is derived from the maximum safe shift width 62 and the base
value as the wrapping `uint` difference `62 - flog(base)`; the cap is
computed on first use, stored in the configuration, and every subsequent
call on the updated configuration returns the same cap with the
configuration unchanged. -/
theorem c7_backoff (flog : Int → Nat) (n : Nat) (e : GoError) (c : DelayState)
    (hfresh : c.maxBackOffN = 0) :
    BackOffDelayFn flog n e c =
      some (int64shl (backoffBase c) (min n (backoffCap flog c)),
        { c with delayTime := backoffBase c, maxBackOffN := backoffCap flog c }) ∧
    ∀ m e2,
      BackOffDelayFn flog m e2
          { c with delayTime := backoffBase c, maxBackOffN := backoffCap flog c } =
        some (int64shl (backoffBase c) (min m (backoffCap flog c)),
          { c with delayTime := backoffBase c, maxBackOffN := backoffCap flog c }) := by
  have hb : backoffBase c ≠ 0 := by
    unfold backoffBase
    split
    · norm_num
    · assumption
  constructor
  · by_cases hz : c.delayTime = 0
    · have step : BackOffDelayFn flog n e c =
          BackOffDelayFn flog n e { c with delayTime := 1 } := by
        simp only [BackOffDelayFn, if_pos hz]
        rfl
      rw [step, backOffDelayFn_fresh flog { c with delayTime := 1 }
        (show (1 : Int) ≠ 0 by norm_num) hfresh n e]
      have hbase : backoffBase c = 1 := by simp [backoffBase, hz]
      simp [hbase, backoffCap]
    · have hbase : backoffBase c = c.delayTime := by simp [backoffBase, hz]
      rw [backOffDelayFn_fresh flog c hz hfresh n e]
      simp [hbase, backoffCap]
  · intro m e2
    exact backOffDelayFn_cached flog
      { c with delayTime := backoffBase c, maxBackOffN := backoffCap flog c }
      hb rfl m e2

/-- Witness for C7: default (unset) base, so the base becomes 1, for which
Go's `Log2(1.0)` is exactly 0 (the exact-power-of-two special case), so the
floor-log2 valuation is the constant 0; attempt 3 yields `1 << 3 = 8` with
the cap 62 cached. -/
theorem c7_backoff_witness :
    BackOffDelayFn (fun _ => 0) 3 (.base "e")
        { randomTime := 0, maxDelayTime := maxInt64, maxBackOffN := 0, delayTime := 0 } =
      some (8, { randomTime := 0, maxDelayTime := maxInt64, maxBackOffN := 62,
                 delayTime := 1 }) := by
  have h := (c7_backoff (fun _ => 0) 3 (.base "e")
    { randomTime := 0, maxDelayTime := maxInt64, maxBackOffN := 0, delayTime := 0 } rfl).1
  rw [h]
  norm_num [backoffBase, backoffCap, uint64sub, int64shl, int64wrap]

/-- The determined divergent band: for a base such as `2 ^ 63 - 1`, whose
`float64` rounds to `2 ^ 63`, Go's `Log2` hits its exact-power-of-two
special case and returns exactly 63, so the `uint` subtraction `62 - 63`
underflows to `2 ^ 64 - 1`: no capping ever applies and the shift wraps
(here to `-2` at attempt 1), exactly as the model computes. -/
theorem backOff_underflow_band :
    BackOffDelayFn (fun _ => 63) 1 (.base "e")
        { randomTime := 0, maxDelayTime := 0, maxBackOffN := 0, delayTime := 2 ^ 63 - 1 } =
      some (-2, { randomTime := 0, maxDelayTime := 0, maxBackOffN := 2 ^ 64 - 1,
                  delayTime := 2 ^ 63 - 1 }) := by
  norm_num [BackOffDelayFn, uint64sub, int64shl, int64wrap, backoff_min]

/-- C8: whatever delay function is installed through `WithDelayFn` (with
whatever delay sub-options), the wrapped delay the executor will use never
exceeds the configured maximum delay ceiling, and when the underlying
policy computes a duration strictly above the ceiling the wrapper returns
exactly the ceiling. -/
theorem c8_ceiling (df : DelayFn) (opts : List DelayOption) (c0 : Config)
    (n : Nat) (e : GoError) (ds : DelayState) :
    (∀ d ds2, (WithDelayFn df opts c0).delayFn n e ds = some (d, ds2) →
      d ≤ ds2.maxDelayTime) ∧
    (∀ d0 ds0, df n e ds = some (d0, ds0) → ds0.maxDelayTime < d0 →
      (WithDelayFn df opts c0).delayFn n e ds = some (ds0.maxDelayTime, ds0)) := by
  constructor
  · intro d ds2 hcall
    simp only [WithDelayFn] at hcall
    cases hdf : df n e ds with
    | none =>
      rw [hdf] at hcall
      cases hcall
    | some p =>
      obtain ⟨d0, ds0⟩ := p
      rw [hdf] at hcall
      by_cases hgt : d0 > ds0.maxDelayTime
      · simp only [if_pos hgt, Option.some.injEq, Prod.mk.injEq] at hcall
        obtain ⟨h1, h2⟩ := hcall
        subst h1
        subst h2
        omega
      · simp only [if_neg hgt, Option.some.injEq, Prod.mk.injEq] at hcall
        obtain ⟨h1, h2⟩ := hcall
        subst h1
        subst h2
        omega
  · intro d0 ds0 hdf hgt
    simp only [WithDelayFn]
    rw [hdf]
    simp [if_pos hgt]

/-- Witness for C8: fixed delay 100 against ceiling 30 is clamped to 30. -/
theorem c8_ceiling_witness :
    FixDelayFn 0 (.base "e")
        { randomTime := 0, maxDelayTime := 30, maxBackOffN := 0, delayTime := 100 } =
      some (100, { randomTime := 0, maxDelayTime := 30, maxBackOffN := 0,
                   delayTime := 100 }) ∧
    (WithDelayFn FixDelayFn [] newDefaultConfig).delayFn 0 (.base "e")
        { randomTime := 0, maxDelayTime := 30, maxBackOffN := 0, delayTime := 100 } =
      some (30, { randomTime := 0, maxDelayTime := 30, maxBackOffN := 0,
                  delayTime := 100 }) :=
  ⟨rfl, (c8_ceiling FixDelayFn [] newDefaultConfig 0 (.base "e")
    { randomTime := 0, maxDelayTime := 30, maxBackOffN := 0, delayTime := 100 }).2 100
    { randomTime := 0, maxDelayTime := 30, maxBackOffN := 0, delayTime := 100 }
    rfl (by norm_num)⟩

end Retry
